import Mathlib

/-!
# Verification of the coupler plugin-framework runtime core

A shallow embedding, in Lean 4, of the parameter-synchronization, event-timeline
and buffer-routing logic of the coupler audio-plugin framework, together with
theorems settling the specification's claims about it.

The embedding follows the VST3 adapter (`src/format/vst3.rs`, the `Wrapper`
type) whose `process`, `setActive`, `setState`, `setBusArrangements`,
`perform_edit` and `setParamNormalized` methods contain the parameter channel,
the event timeline and the buffer router.  The newer generation of the adapter
(`src/format/vst3/component.rs`) is embedded separately where a claim cites it
(its `format_to_speaker_arrangement` / `speaker_arrangement_to_format` pair).

Modelling conventions:
* machine floats (`f64` parameter values, `f32` samples) are modelled as `ℚ`;
  the embedded code only stores and moves these values, it never computes with
  them, so the carrier type is irrelevant;
* raw channel pointers are modelled as natural numbers, and the host-owned
  sample memory behind them as a function `ℕ → List ℚ` from a pointer to the
  block of samples it addresses;
* the concurrent `AtomicBitset` (module `crate::atomic`, which is not part of
  the source tree — only its call sites are) is modelled from the spec, in its
  sequential (single-interleaving) semantics, as a `List Bool`;
* VST3 `tresult` codes: `kResultOk` and `kResultTrue` are the same numeric
  constant, so both are modelled as `TResult.resultOk`.
-/

namespace Coupler

/-- VST3 `tresult` codes used by the embedded methods.  `kResultOk` and
`kResultTrue` are numerically identical in VST3 and are both `resultOk` here. -/
inductive TResult where
  | resultOk
  | resultFalse
  | invalidArgument
  deriving DecidableEq

/-! ## Dirty-Sets (spec §4.1) and parameter state -/

/-- Modelled from the spec: `AtomicBitset.set` (`mark` in the spec, §4.1) from
the repository's `crate::atomic` module, which is not present in the source
tree (only its call sites in `vst3.rs` are).  Marking idempotently sets the bit
for the given index; an out-of-range index is a caller contract violation and
is modelled as a no-op (`List.set` out of range leaves the list unchanged). -/
def bitsetMark (bits : List Bool) (i : ℕ) : List Bool :=
  bits.set i true

/-- Modelled from the spec: `AtomicBitset.drain_indices` (spec §4.1 `drain`):
yields the indices whose bit is set, in index order, clearing every bit.  This
is the sequential semantics of the one-shot lazy drain. -/
def bitsetDrain (bits : List Bool) : List ℕ × List Bool :=
  ((List.range bits.length).filter fun i => bits.getD i false,
   List.replicate bits.length false)

/-- Modelled from the spec: `AtomicBitset.set_all` (spec §4.1 `mark_all`):
sets every bit. -/
def bitsetSetAll (bits : List Bool) : List Bool :=
  List.replicate bits.length true

/-- The parameter-channel state of one `Wrapper` instance: the current
parameter values (one slot per parameter, read and written through the
parameters' accessors) and the two Dirty-Sets of `ParamStates` in `vst3.rs`:
`dirty_processor` (pending-for-processor) and `dirty_editor`
(pending-for-model/editor). -/
structure ParamStates where
  values : List ℚ
  dirty_processor : List Bool
  dirty_editor : List Bool
  deriving DecidableEq

/-- `Vst3EditorContext::perform_edit` (`vst3.rs` lines 83–107), restricted to
its effect on the parameter channel: store the new value through the
parameter's accessor, then mark the parameter's bit in `dirty_processor`.
(The COM notification of the host's `IComponentHandler` carries no state.) -/
def perform_edit (s : ParamStates) (index : ℕ) (value : ℚ) : ParamStates :=
  { s with
    values := s.values.set index value
    dirty_processor := bitsetMark s.dirty_processor index }

/-- `IEditControllerTrait::setParamNormalized` (`vst3.rs` lines 1023–1041):
store the mapped value through the accessor, then mark the parameter's bit in
both `dirty_processor` and `dirty_editor`.  The normalized-to-plain `map` is
value-preserving at this level of modelling (values are opaque). -/
def setParamNormalized (s : ParamStates) (index : ℕ) (value : ℚ) : ParamStates :=
  { s with
    values := s.values.set index value
    dirty_processor := bitsetMark s.dirty_processor index
    dirty_editor := bitsetMark s.dirty_editor index }

/-- The per-point parameter write performed by `process` for one host
automation point (`vst3.rs` lines 757–762): store the mapped value through the
accessor, then mark the parameter's bit in `dirty_editor`. -/
def process_param_point (s : ParamStates) (index : ℕ) (value : ℚ) : ParamStates :=
  { s with
    values := s.values.set index value
    dirty_editor := bitsetMark s.dirty_editor index }

/-- A sequence of control-thread edits (`perform_edit` calls), applied in
order; each element is a (parameter index, value) pair. -/
def apply_edits (s : ParamStates) (ws : List (ℕ × ℚ)) : ParamStates :=
  ws.foldl (fun st w => perform_edit st w.1 w.2) s

/-- The value of the last write to index `i` in the edit sequence `ws`,
if any. -/
def last_write : List (ℕ × ℚ) → ℕ → Option ℚ
  | [], _ => none
  | w :: ws, i =>
    match last_write ws i with
    | some v => some v
    | none => if w.1 = i then some w.2 else none

/-- `IComponentTrait::setState` (`vst3.rs` lines 489–524), the bulk state
load: when the stream deserializes successfully (`deserialize_ok`, with
`loaded` the parameter values read from the stream into the plugin), every bit
of both Dirty-Sets is set (`set_all`, the spec's `mark_all`) and `kResultOk`
is returned; otherwise the state is untouched and `kResultFalse` is
returned. -/
def setState (deserialize_ok : Bool) (loaded : List ℚ) (s : ParamStates) :
    TResult × ParamStates :=
  if deserialize_ok then
    (.resultOk,
     { values := loaded
       dirty_processor := bitsetSetAll s.dirty_processor
       dirty_editor := bitsetSetAll s.dirty_editor })
  else
    (.resultFalse, s)

/-! ## Events and the per-block event timeline -/

/-- A timed event for one block: `Event` in `crate::process` with its
`ParamChange` payload.  The parameter is identified here by its index in the
parameter list (`ParamList.index_of` is the bijection between `ParamId`s and
indices; using the index avoids carrying the id map). -/
structure Event where
  offset : ℕ
  index : ℕ
  value : ℚ
  deriving DecidableEq

/-- One host-supplied automation point of `IParameterChanges`, already resolved
to a parameter index; `points` lists them in host iteration order (per
parameter queue, point by point), which is arbitrary in offset. -/
structure ParamPoint where
  index : ℕ
  offset : ℕ
  value : ℚ
  deriving DecidableEq

/-- The event a host point contributes to the block's timeline
(`vst3.rs` lines 764–767). -/
def point_event (p : ParamPoint) : Event :=
  { offset := p.offset, index := p.index, value := p.value }

/-- The dirty-parameter drain at the top of `process` (`vst3.rs` lines
719–734): every index drained from `dirty_processor` contributes an event at
offset 0 carrying the parameter's current value; the Dirty-Set is cleared. -/
def drain_events (s : ParamStates) : List Event × ParamStates :=
  let d := bitsetDrain s.dirty_processor
  (d.1.map fun i => { offset := 0, index := i, value := s.values.getD i 0 },
   { s with dirty_processor := d.2 })

/-- The parameter-channel state updates performed while walking the host's
points (`vst3.rs` lines 747–771): each point stores its value and marks
`dirty_editor`. -/
def apply_points (s : ParamStates) (points : List ParamPoint) : ParamStates :=
  points.foldl (fun st p => process_param_point st p.index p.value) s

/-- The block's events in arrival order, before sorting: the drained
dirty-parameter events (offset 0) followed by the host's points in host
order. -/
def arrival_events (s : ParamStates) (points : List ParamPoint) : List Event :=
  (drain_events s).1 ++ points.map point_event

/-- Insertion step of the stable sort by offset: the new event goes after
every earlier-arrived event with a strictly smaller offset and before every
earlier-arrived event with a greater-or-equal offset... see
`sort_by_offset`. -/
def insert_by_offset (e : Event) : List Event → List Event
  | [] => [e]
  | x :: xs => if x.offset < e.offset then x :: insert_by_offset e xs else e :: x :: xs

/-- `events.sort_by_key(|e| e.offset)` (`vst3.rs` lines 773–775).  Rust's
`sort_by_key` is a stable sort; a stable sort by key is extensionally unique,
and is embedded here as stable insertion sort (an element is inserted before
exactly the earlier-arrived elements whose offset is strictly greater). -/
def sort_by_offset : List Event → List Event
  | [] => []
  | e :: es => insert_by_offset e (sort_by_offset es)

/-! ## Bus topology (`crate::bus`, as used by `vst3.rs`) -/

/-- `BusFormat` (`crate::bus`): the channel formats a bus can take.  This
generation of the code declares exactly one: `Stereo`. -/
inductive BusFormat where
  | stereo
  deriving DecidableEq

/-- `BusFormat::channels`. -/
def BusFormat.channels : BusFormat → ℕ
  | .stereo => 2

/-- A VST3 `SpeakerArrangement` bitmask, abstracted to the constants the
embedded functions inspect (`kMono`, `kStereo`) plus everything else. -/
inductive SpeakerArrangement where
  | mono
  | stereo
  | other (bits : ℕ)
  deriving DecidableEq

/-- `bus_format_to_speaker_arrangement` (`vst3.rs` lines 49–53). -/
def bus_format_to_speaker_arrangement : BusFormat → SpeakerArrangement
  | .stereo => .stereo

/-- `speaker_arrangement_to_bus_format` (`vst3.rs` lines 55–60). -/
def speaker_arrangement_to_bus_format : SpeakerArrangement → Option BusFormat
  | .stereo => some .stereo
  | _ => none

/-- `BusState` (`crate::bus`): the mutable per-bus state — its current format
and whether the host has the bus enabled (`activateBus`). -/
structure BusState where
  format : BusFormat
  enabled : Bool
  deriving DecidableEq

/-- The two halves of `BusStates` in `vst3.rs`. -/
structure BusStates where
  inputs : List BusState
  outputs : List BusState
  deriving DecidableEq

/-- `BusConfig` (`crate::bus`): one legal combination of formats across all
input and output buses; the spec's Layout. -/
structure BusConfig where
  inputs : List BusFormat
  outputs : List BusFormat
  deriving DecidableEq

/-- The per-bus `bus_state.set_format(...)` loop of `setBusArrangements`
(`vst3.rs` lines 614–628): the zipped prefix takes the candidate's formats,
any remaining bus states are left as they are (the `zip` iteration stops at
the shorter list). -/
def set_formats : List BusFormat → List BusState → List BusState
  | f :: fs, st :: sts => { st with format := f } :: set_formats fs sts
  | [], sts => sts
  | _ :: _, [] => []

/-- The per-arrangement conversion loops of `setBusArrangements` (`vst3.rs`
lines 590–596 and 605–611): each arrangement must map to a bus format, the
first unmappable one aborts with failure. -/
def map_formats (arrs : List SpeakerArrangement) : Option (List BusFormat) :=
  arrs.mapM speaker_arrangement_to_bus_format

/-- `IAudioProcessorTrait::setBusArrangements` (`vst3.rs` lines 566–634).
`bus_inputs_len` / `bus_outputs_len` are the static bus-list lengths,
`bus_config_set` the plugin's declared layout set (a `HashSet<BusConfig>`,
modelled by list membership), `s` the current bus states.  Failure at any
stage returns `kResultFalse` without touching `s`; on success the candidate
becomes the active layout and `kResultTrue` (= `resultOk`) is returned. -/
def setBusArrangements (bus_inputs_len bus_outputs_len : ℕ)
    (bus_config_set : List BusConfig) (s : BusStates)
    (inputs outputs : List SpeakerArrangement) : TResult × BusStates :=
  if inputs.length ≠ bus_inputs_len ∨ outputs.length ≠ bus_outputs_len then
    (.resultFalse, s)
  else
    match map_formats inputs, map_formats outputs with
    | some ins, some outs =>
      if (⟨ins, outs⟩ : BusConfig) ∈ bus_config_set then
        (.resultOk,
         { inputs := set_formats ins s.inputs, outputs := set_formats outs s.outputs })
      else
        (.resultFalse, s)
    | _, _ => (.resultFalse, s)

/-! ## Buffer router (`vst3.rs` `setActive` and `process`) -/

/-- The total channel count over a bus-state list, counting a disabled bus as
zero channels — the `total_channels` accumulation of `setActive` (`vst3.rs`
lines 415–428 and 437–450). -/
def enabled_channel_count (buses : List BusState) : ℕ :=
  (buses.map fun b => if b.enabled then b.format.channels else 0).sum

/-- The scratch-storage size established by `setActive` (`vst3.rs` lines
459–468): `max_buffer_size * min(input_channels, output_channels)` floats,
reserved (and shrunk) once at activation. -/
def scratch_buffer_size (max_buffer_size : ℕ) (bus_inputs bus_outputs : List BusState) : ℕ :=
  max_buffer_size *
    min (enabled_channel_count bus_inputs) (enabled_channel_count bus_outputs)

/-- One block's host-supplied `ProcessData`: per input and output bus, the
list of raw channel-buffer pointers (`numChannels` is the list's length),
the block's sample count, and the flattened automation points. -/
structure HostData where
  host_inputs : List (List ℕ)
  host_outputs : List (List ℕ)
  samples : ℕ
  points : List ParamPoint

/-- The per-bus pointer-gathering loops of `process` (`vst3.rs` lines
791–805 and 816–830): host buses are zipped with the bus states; a disabled
or zero-channel bus is skipped; an enabled bus whose supplied channel count
differs from its format's channel count aborts with `kInvalidArgument`;
otherwise its channel pointers are appended. -/
def gather_ptrs : List (List ℕ) → List BusState → Except Unit (List ℕ)
  | _, [] => .ok []
  | [], _ :: _ => .ok []
  | host :: hs, bus :: bs =>
    if !bus.enabled || bus.format.channels == 0 then
      gather_ptrs hs bs
    else if host.length ≠ bus.format.channels then
      .error ()
    else
      (gather_ptrs hs bs).map fun rest => host ++ rest

/-- One side of the buffer validation in `process` (`vst3.rs` lines 783–806
for inputs, 808–831 for outputs): when the static bus list is nonempty, the
host's bus count must equal it, and then the per-bus gathering runs. -/
def resolve_side (hosts : List (List ℕ)) (buses : List BusState) : Except Unit (List ℕ) :=
  if buses.isEmpty then
    .ok []
  else if hosts.length = buses.length then
    gather_ptrs hosts buses
  else
    .error ()

/-- Both sides of the buffer validation of `process`, in source order: inputs
first, then outputs; the first failure yields `kInvalidArgument`. -/
def resolve_ptrs (bus_inputs bus_outputs : List BusState) (d : HostData) :
    Except Unit (List ℕ × List ℕ) :=
  match resolve_side d.host_inputs bus_inputs with
  | .error _ => .error ()
  | .ok in_ptrs =>
    match resolve_side d.host_outputs bus_outputs with
    | .error _ => .error ()
    | .ok out_ptrs => .ok (in_ptrs, out_ptrs)

/-- What one call of `IAudioProcessorTrait::process` produces, as far as the
claims are concerned: its `tresult`; whether the plugin's
`Processor::process` was invoked; the event slice handed to it; per input
channel, the samples its buffer view yields; how many floats were appended
into `scratch_buffers` during the call; and the parameter-channel state after
the call. -/
structure ProcessOutcome where
  result : TResult
  invoked : Bool
  events : List Event
  input_views : List (List ℚ)
  scratch_len : ℕ
  state : ParamStates

/-- `IAudioProcessorTrait::process` (`vst3.rs` lines 709–902).  `mem` maps a
raw channel pointer to the block of samples behind it.  Steps, in source
order: drain `dirty_processor` into offset-0 events; walk the host's
automation points (writing each value and marking `dirty_editor`); stable-sort
the events by offset; for a positive block, validate bus and channel counts
(`kInvalidArgument` on mismatch, without invoking the processor); build the
sorted deduplicated output-pointer set (membership in it is modelled as plain
list membership, which is extensionally what `sort`/`dedup`/`binary_search`
computes); copy each aliased input channel's samples into the scratch buffer
in channel order; substitute, for the k-th aliased channel, a pointer into the
scratch buffer at offset `k * max_buffer_size`; finally invoke the processor.
A zero-length block skips validation and routing (the pointer lists are
resized with null pointers) and invokes the processor directly. -/
def process (bus_inputs bus_outputs : List BusState) (max_buffer_size : ℕ)
    (mem : ℕ → List ℚ) (s : ParamStates) (d : HostData) : ProcessOutcome :=
  let s2 := apply_points (drain_events s).2 d.points
  let events := sort_by_offset (arrival_events s d.points)
  if d.samples = 0 then
    { result := .resultOk, invoked := true, events := events,
      input_views := [], scratch_len := 0, state := s2 }
  else
    match resolve_ptrs bus_inputs bus_outputs d with
    | .error _ =>
      { result := .invalidArgument, invoked := false, events := events,
        input_views := [], scratch_len := 0, state := s2 }
    | .ok (in_ptrs, out_ptrs) =>
      let aliased_ptrs := in_ptrs.filter fun p => out_ptrs.contains p
      let scratch := (aliased_ptrs.map fun p => (mem p).take d.samples).flatten
      let view := fun c =>
        let p := in_ptrs.getD c 0
        if out_ptrs.contains p then
          let k := ((in_ptrs.take c).filter fun q => out_ptrs.contains q).length
          (scratch.drop (k * max_buffer_size)).take d.samples
        else
          (mem p).take d.samples
      { result := .resultOk, invoked := true, events := events,
        input_views := (List.range in_ptrs.length).map view,
        scratch_len := scratch.length, state := s2 }

/-- The buffer-count / channel-count mismatch condition the spec's contract
rejection is about: some host bus, zipped against its bus state, is enabled
with a nonzero channel count and was supplied a different number of channel
buffers. -/
def bus_channel_mismatch (hosts : List (List ℕ)) (buses : List BusState) : Prop :=
  ∃ pr ∈ hosts.zip buses,
    pr.2.enabled = true ∧ pr.2.format.channels ≠ 0 ∧ pr.1.length ≠ pr.2.format.channels

/-! ## The newer adapter generation (`src/format/vst3/component.rs`) -/

namespace V2

/-- `Format` (`crate::bus` of the newer generation): `Mono` or `Stereo`. -/
inductive Format where
  | mono
  | stereo
  deriving DecidableEq

/-- `format_to_speaker_arrangement` (`component.rs` lines 20–25).  Note the
source maps `Format::Mono` to `SpeakerArr::kStereo`. -/
def format_to_speaker_arrangement : Format → SpeakerArrangement
  | .mono => .stereo
  | .stereo => .stereo

/-- `speaker_arrangement_to_format` (`component.rs` lines 27–33). -/
def speaker_arrangement_to_format : SpeakerArrangement → Option Format
  | .mono => some .mono
  | .stereo => some .stereo
  | _ => none

/-- Modelled from the spec: `ParamValues` (`crate::sync::params`, which is not
present in the source tree — only its call sites in `component.rs` and
`clap/instance.rs` are).  Per spec §4.2 it is one value slot per parameter
plus a Dirty-Set: `set(index, value)` stores the value and marks the index;
`poll` drains the Dirty-Set, yielding each marked index with its current
value. -/
structure ParamValues where
  values : List ℚ
  dirty : List Bool
  deriving DecidableEq

/-- Modelled from the spec: `ParamValues::set` — store the value, then mark
the dirty bit of the written index. -/
def param_values_set (pv : ParamValues) (index : ℕ) (value : ℚ) : ParamValues :=
  { values := pv.values.set index value, dirty := bitsetMark pv.dirty index }

/-- The parts of `Component` (`component.rs` lines 49–62) that its `setState`
touches: the number of declared parameters (`info.params.len()`), the plugin
model's own parameter values, the two `ParamValues` channels `plugin_params`
(pending-for-model, consumed by `sync_plugin`) and `processor_params`
(pending-for-processor, consumed by `sync_processor`), and the editor's value
table `editor_params`. -/
structure ComponentState where
  param_count : ℕ
  plugin_values : List ℚ
  plugin_params : ParamValues
  processor_params : ParamValues
  editor_params : List ℚ
  deriving DecidableEq

/-- `Component::sync_plugin` (`component.rs` lines 119–124): drain the
pending-for-model channel and write each drained value into the plugin
model. -/
def sync_plugin (s : ComponentState) : ComponentState :=
  let d := bitsetDrain s.plugin_params.dirty
  { s with
    plugin_values :=
      d.1.foldl (fun vs i => vs.set i (s.plugin_params.values.getD i 0)) s.plugin_values
    plugin_params := { s.plugin_params with dirty := d.2 } }

/-- One iteration of the post-load loop of `Component::setState`
(`component.rs` lines 304–308): read the parameter's value back from the
loaded plugin, `set` it into the pending-for-processor channel, and overwrite
the editor's value table entry directly. -/
def load_step (st : ComponentState) (index : ℕ) : ComponentState :=
  let value := st.plugin_values.getD index 0
  { st with
    processor_params := param_values_set st.processor_params index value
    editor_params := st.editor_params.set index value }

/-- `IComponentTrait::setState` of `Component` (`component.rs` lines
278–315): `sync_plugin` first; then, when the stream loads successfully
(`load_ok`, with `loaded` the plugin model's parameter values after the
load), the post-load loop runs over every parameter index and `kResultOk` is
returned; on a failed load nothing further happens and `kResultFalse` is
returned. -/
def setState (load_ok : Bool) (loaded : List ℚ) (s : ComponentState) :
    TResult × ComponentState :=
  let s1 := sync_plugin s
  if load_ok then
    (.resultOk, (List.range s1.param_count).foldl load_step { s1 with plugin_values := loaded })
  else
    (.resultFalse, s1)

end V2

/-- The concrete host memory used by the aliasing counterexamples: pointer 1
addresses the block `[1, 2]`, pointer 2 the block `[3, 4]`, pointer 5 the
block `[1, 1, 1, 1]`; everything else is unmapped. -/
def demo_mem : ℕ → List ℚ
  | 1 => [1, 2]
  | 2 => [3, 4]
  | 5 => [1, 1, 1, 1]
  | _ => []

/-! ## General list lemmas -/

theorem getD_set_self {α : Type} {l : List α} {i : ℕ} {a d : α} (h : i < l.length) :
    (l.set i a).getD i d = a := by
  rw [List.getD_eq_getElem?_getD, List.getElem?_set_self h, Option.getD_some]

theorem getD_set_ne {α : Type} {l : List α} {i j : ℕ} {a d : α} (h : i ≠ j) :
    (l.set i a).getD j d = l.getD j d := by
  rw [List.getD_eq_getElem?_getD, List.getElem?_set, if_neg h, List.getD_eq_getElem?_getD]

theorem getD_replicate_lt {α : Type} {n i : ℕ} {a d : α} (h : i < n) :
    (List.replicate n a).getD i d = a := by
  rw [List.getD_eq_getElem?_getD, List.getElem?_replicate, if_pos h, Option.getD_some]

/-! ## The stable sort: permutation, sortedness, stability -/

theorem insert_by_offset_perm (e : Event) (l : List Event) :
    (insert_by_offset e l).Perm (e :: l) := by
  induction l with
  | nil => exact List.Perm.refl _
  | cons x xs ih =>
    by_cases h : x.offset < e.offset
    · simpa [insert_by_offset, h] using ((ih.cons x).trans (List.Perm.swap e x xs))
    · simp [insert_by_offset, h]

theorem sort_by_offset_perm (l : List Event) : (sort_by_offset l).Perm l := by
  induction l with
  | nil => exact List.Perm.refl _
  | cons e es ih =>
    exact (insert_by_offset_perm e (sort_by_offset es)).trans (ih.cons e)

theorem pairwise_insert_by_offset {l : List Event} (e : Event)
    (h : List.Pairwise (fun a b => a.offset ≤ b.offset) l) :
    List.Pairwise (fun a b => a.offset ≤ b.offset) (insert_by_offset e l) := by
  induction l with
  | nil => simp [insert_by_offset]
  | cons x xs ih =>
    rcases List.pairwise_cons.mp h with ⟨hx, hxs⟩
    by_cases hlt : x.offset < e.offset
    · rw [insert_by_offset, if_pos hlt]
      refine List.pairwise_cons.mpr ⟨?_, ih hxs⟩
      intro b hb
      rcases List.mem_cons.mp ((insert_by_offset_perm e xs).mem_iff.mp hb) with hb | hb
      · subst hb; exact le_of_lt hlt
      · exact hx b hb
    · rw [insert_by_offset, if_neg hlt]
      refine List.pairwise_cons.mpr ⟨?_, h⟩
      intro b hb
      rcases List.mem_cons.mp hb with hb | hb
      · subst hb; exact le_of_not_lt hlt
      · exact le_trans (le_of_not_lt hlt) (hx b hb)

theorem sort_by_offset_sorted (l : List Event) :
    List.Pairwise (fun a b => a.offset ≤ b.offset) (sort_by_offset l) := by
  induction l with
  | nil => simp [sort_by_offset]
  | cons e es ih => exact pairwise_insert_by_offset e ih

theorem filter_insert_by_offset (e : Event) (l : List Event) (t : ℕ) :
    (insert_by_offset e l).filter (fun x => x.offset == t)
      = if e.offset = t then e :: l.filter (fun x => x.offset == t)
        else l.filter (fun x => x.offset == t) := by
  induction l with
  | nil => by_cases h : e.offset = t <;> simp [insert_by_offset, h]
  | cons x xs ih =>
    by_cases hlt : x.offset < e.offset
    · rw [insert_by_offset, if_pos hlt]
      by_cases ht : e.offset = t
      · have hxt : ¬(x.offset = t) := fun hx => absurd (hx ▸ ht ▸ hlt) (lt_irrefl _)
        simp [List.filter_cons, ih, ht, hxt]
      · by_cases hxt : x.offset = t <;> simp [List.filter_cons, ih, ht, hxt]
    · rw [insert_by_offset, if_neg hlt]
      by_cases ht : e.offset = t <;> by_cases hxt : x.offset = t <;>
        simp [List.filter_cons, hxt, ht]

theorem sort_by_offset_filter (l : List Event) (t : ℕ) :
    (sort_by_offset l).filter (fun x => x.offset == t)
      = l.filter (fun x => x.offset == t) := by
  induction l with
  | nil => rfl
  | cons e es ih =>
    by_cases ht : e.offset = t <;>
      simp [sort_by_offset, filter_insert_by_offset, ht, List.filter_cons, ih]

/-! ## Unfolding lemmas for `process` -/

theorem process_events (bus_inputs bus_outputs : List BusState) (max_buffer_size : ℕ)
    (mem : ℕ → List ℚ) (s : ParamStates) (d : HostData) :
    (process bus_inputs bus_outputs max_buffer_size mem s d).events
      = sort_by_offset (arrival_events s d.points) := by
  unfold process
  by_cases hd : d.samples = 0
  · simp [hd]
  · simp only [hd, if_neg]
    cases hr : resolve_ptrs bus_inputs bus_outputs d with
    | error e => simp [hr]
    | ok pr => rcases pr with ⟨ips, ops⟩; simp [hr]

theorem process_state (bus_inputs bus_outputs : List BusState) (max_buffer_size : ℕ)
    (mem : ℕ → List ℚ) (s : ParamStates) (d : HostData) :
    (process bus_inputs bus_outputs max_buffer_size mem s d).state
      = apply_points (drain_events s).2 d.points := by
  unfold process
  by_cases hd : d.samples = 0
  · simp [hd]
  · simp only [hd, if_neg]
    cases hr : resolve_ptrs bus_inputs bus_outputs d with
    | error e => simp [hr]
    | ok pr => rcases pr with ⟨ips, ops⟩; simp [hr]

theorem process_ok (bus_inputs bus_outputs : List BusState) (max_buffer_size : ℕ)
    (mem : ℕ → List ℚ) (s : ParamStates) (d : HostData)
    (h : d.samples = 0 ∨ ∃ pr, resolve_ptrs bus_inputs bus_outputs d = .ok pr) :
    (process bus_inputs bus_outputs max_buffer_size mem s d).result = .resultOk
      ∧ (process bus_inputs bus_outputs max_buffer_size mem s d).invoked = true := by
  unfold process
  rcases h with hd | ⟨pr, hr⟩
  · simp [hd]
  · by_cases hd : d.samples = 0
    · simp [hd]
    · rcases pr with ⟨ips, ops⟩
      simp [hd, hr]

theorem process_rejected (bus_inputs bus_outputs : List BusState) (max_buffer_size : ℕ)
    (mem : ℕ → List ℚ) (s : ParamStates) (d : HostData)
    (hd : d.samples ≠ 0) (hr : resolve_ptrs bus_inputs bus_outputs d = .error ()) :
    (process bus_inputs bus_outputs max_buffer_size mem s d).result = .invalidArgument
      ∧ (process bus_inputs bus_outputs max_buffer_size mem s d).invoked = false := by
  unfold process
  simp [hd, hr]

theorem process_scratch (bus_inputs bus_outputs : List BusState) (max_buffer_size : ℕ)
    (mem : ℕ → List ℚ) (s : ParamStates) (d : HostData) (ips ops : List ℕ)
    (hd : d.samples ≠ 0) (hr : resolve_ptrs bus_inputs bus_outputs d = .ok (ips, ops)) :
    (process bus_inputs bus_outputs max_buffer_size mem s d).scratch_len
      = (((ips.filter fun p => ops.contains p).map fun p => (mem p).take d.samples).flatten).length := by
  unfold process
  simp [hd, hr]

/-! ## Dirty-Set drain and edit-sequence lemmas -/

theorem drain_nodup (bits : List Bool) : (bitsetDrain bits).1.Nodup :=
  (List.nodup_range _).filter _

theorem mem_drain {bits : List Bool} {i : ℕ} :
    i ∈ (bitsetDrain bits).1 ↔ i < bits.length ∧ bits.getD i false = true := by
  simp [bitsetDrain, List.mem_filter, List.mem_range]

theorem drain_replicate_false (n : ℕ) :
    (bitsetDrain (List.replicate n false)).1 = [] := by
  refine List.filter_eq_nil_iff.mpr ?_
  intro a ha
  rcases List.mem_range.mp ha with h
  simp [getD_replicate_lt h]

theorem apply_edits_values_length (s : ParamStates) (ws : List (ℕ × ℚ)) :
    (apply_edits s ws).values.length = s.values.length := by
  induction ws generalizing s with
  | nil => rfl
  | cons w ws ih => simpa [apply_edits, perform_edit] using ih (perform_edit s w.1 w.2)

theorem apply_edits_dirty_length (s : ParamStates) (ws : List (ℕ × ℚ)) :
    (apply_edits s ws).dirty_processor.length = s.dirty_processor.length := by
  induction ws generalizing s with
  | nil => rfl
  | cons w ws ih =>
    simpa [apply_edits, perform_edit, bitsetMark] using ih (perform_edit s w.1 w.2)

theorem last_write_none {ws : List (ℕ × ℚ)} {i : ℕ} (h : last_write ws i = none) :
    ∀ w ∈ ws, w.1 ≠ i := by
  induction ws with
  | nil => simp
  | cons w ws ih =>
    intro x hx
    unfold last_write at h
    rcases hlw : last_write ws i with _ | v
    · rw [hlw] at h
      rcases List.mem_cons.mp hx with rfl | hx
      · intro he
        rw [if_pos he] at h
        exact Option.noConfusion h
      · exact ih hlw x hx
    · rw [hlw] at h
      exact Option.noConfusion h

theorem apply_edits_no_write (s : ParamStates) {ws : List (ℕ × ℚ)} {i : ℕ}
    (h : ∀ w ∈ ws, w.1 ≠ i) :
    (apply_edits s ws).values.getD i 0 = s.values.getD i 0
      ∧ (apply_edits s ws).dirty_processor.getD i false = s.dirty_processor.getD i false := by
  induction ws generalizing s with
  | nil => exact ⟨rfl, rfl⟩
  | cons w ws ih =>
    have hw : w.1 ≠ i := h w (List.mem_cons_self w ws)
    have hrest : ∀ x ∈ ws, x.1 ≠ i := fun x hx => h x (List.mem_cons_of_mem w hx)
    have step := ih (perform_edit s w.1 w.2) hrest
    refine ⟨step.1.trans ?_, step.2.trans ?_⟩
    · exact getD_set_ne hw
    · exact getD_set_ne hw

theorem apply_edits_last_write {s : ParamStates} {ws : List (ℕ × ℚ)} {i : ℕ} {v : ℚ}
    (hlast : last_write ws i = some v) (hi : i < s.values.length)
    (hid : i < s.dirty_processor.length) :
    (apply_edits s ws).values.getD i 0 = v
      ∧ (apply_edits s ws).dirty_processor.getD i false = true := by
  induction ws generalizing s with
  | nil => exact Option.noConfusion hlast
  | cons w ws ih =>
    unfold last_write at hlast
    rcases hlw : last_write ws i with _ | v'
    · rw [hlw] at hlast
      by_cases he : w.1 = i
      · rw [if_pos he] at hlast
        rcases Option.some.injEq _ _ ▸ hlast with rfl
        have hnone := last_write_none hlw
        have step := apply_edits_no_write (perform_edit s w.1 w.2) hnone
        subst he
        refine ⟨step.1.trans ?_, step.2.trans ?_⟩
        · exact getD_set_self hi
        · exact getD_set_self hid
      · rw [if_neg he] at hlast
        exact Option.noConfusion hlast
    · rw [hlw] at hlast
      rcases Option.some.injEq _ _ ▸ hlast with rfl
      exact ih hlw (by simpa [perform_edit] using hi) (by simpa [perform_edit, bitsetMark] using hid)

theorem drain_filter_eq {bits : List Bool} {i : ℕ} (hi : i < bits.length)
    (hb : bits.getD i false = true) :
    (bitsetDrain bits).1.filter (fun j => j == i) = [i] := by
  have hmem : i ∈ (bitsetDrain bits).1 := mem_drain.mpr ⟨hi, hb⟩
  have hcount : (bitsetDrain bits).1.count i = 1 :=
    List.count_eq_one_of_mem (drain_nodup bits) hmem
  rw [List.filter_beq, hcount, List.replicate_one]

/-! ## Claim C1 — parameter channel: last-write-wins, exactly-once drain -/

/-- Claim C1: for every parameter index `i`, if `set(i, v)` (a control-thread
`perform_edit`) is called one or more times after the previous poll, with last
value `v`, then the processor-side poll inside the next `process` call yields
the pair `(i, v)` exactly once (as the single offset-0 event for index `i`),
and a second `process` call with no intervening set yields an empty poll.
This is the sequential (interleaving-free) form of the spec's concurrent
statement, and subsumes the end-to-end scenario
(`set(gain_index, 0.5)`; `process`; `process`). -/
theorem c1_param_channel_last_write_wins
    (bus_inputs bus_outputs : List BusState) (max_buffer_size : ℕ) (mem : ℕ → List ℚ)
    (s : ParamStates) (ws : List (ℕ × ℚ)) (i : ℕ) (v : ℚ) (d : HostData)
    (hlen : s.dirty_processor.length = s.values.length)
    (hi : i < s.values.length)
    (hlast : last_write ws i = some v)
    (hpts : d.points = []) :
    ((process bus_inputs bus_outputs max_buffer_size mem (apply_edits s ws) d).events.filter
        (fun e => e.index == i)) = [{ offset := 0, index := i, value := v }]
      ∧ (process bus_inputs bus_outputs max_buffer_size mem
          (process bus_inputs bus_outputs max_buffer_size mem (apply_edits s ws) d).state
          d).events = [] := by
  set s' := apply_edits s ws with hs'
  have hlen' : s'.dirty_processor.length = s.dirty_processor.length :=
    apply_edits_dirty_length s ws
  have hid : i < s'.dirty_processor.length := by
    rw [hlen', hlen]; exact hi
  have hmain := apply_edits_last_write (s := s) hlast hi (by rw [hlen]; exact hi)
  constructor
  · rw [process_events]
    have harr : arrival_events s' d.points = (drain_events s').1 := by
      simp [arrival_events, hpts]
    have hperm : ((sort_by_offset (arrival_events s' d.points)).filter
        (fun e => e.index == i)).Perm
          ((arrival_events s' d.points).filter (fun e => e.index == i)) :=
      List.Perm.filter _ (sort_by_offset_perm _)
    have hfilter : (arrival_events s' d.points).filter (fun e => e.index == i)
        = [{ offset := 0, index := i, value := v }] := by
      rw [harr]
      show (((bitsetDrain s'.dirty_processor).1.map
        (fun j => ({ offset := 0, index := j, value := s'.values.getD j 0 } : Event))).filter
          (fun e => e.index == i)) = _
      rw [List.filter_map]
      have hcomp : ((fun e => e.index == i) ∘
          (fun j => ({ offset := 0, index := j, value := s'.values.getD j 0 } : Event)))
            = fun j => j == i := rfl
      rw [hcomp]
      rw [drain_filter_eq hid hmain.2]
      have hv : s'.values.getD i 0 = v := hmain.1
      simp only [List.map_cons, List.map_nil, hv]
    rw [hfilter] at hperm
    exact List.perm_singleton.mp hperm
  · rw [process_events]
    have hstate : (process bus_inputs bus_outputs max_buffer_size mem s' d).state
        = (drain_events s').2 := by
      rw [process_state, hpts]
      rfl
    rw [hstate]
    have hdp : (drain_events s').2.dirty_processor
        = List.replicate s'.dirty_processor.length false := rfl
    have hdrain2 : (drain_events (drain_events s').2).1 = [] := by
      show ((bitsetDrain (drain_events s').2.dirty_processor).1.map _) = []
      rw [hdp, drain_replicate_false]
      rfl
    rw [show arrival_events (drain_events s').2 d.points = [] by
      simp [arrival_events, hpts, hdrain2]]
    rfl

/-- Claim C1 witness: the end-to-end scenario — one parameter, a stereo
in/out layout, block length 4, a control-thread `set(0, 0.5)`, then two
`process` calls with no host events. -/
theorem c1_param_channel_last_write_wins_witness :
    ((process [⟨.stereo, true⟩] [⟨.stereo, true⟩] 4 demo_mem
        (apply_edits ⟨[0], [false], [false]⟩ [(0, 1/2)])
        ⟨[[1, 2]], [[3, 4]], 4, []⟩).events.filter (fun e => e.index == 0))
        = [{ offset := 0, index := 0, value := 1/2 }]
      ∧ (process [⟨.stereo, true⟩] [⟨.stereo, true⟩] 4 demo_mem
          (process [⟨.stereo, true⟩] [⟨.stereo, true⟩] 4 demo_mem
            (apply_edits ⟨[0], [false], [false]⟩ [(0, 1/2)])
            ⟨[[1, 2]], [[3, 4]], 4, []⟩).state
          ⟨[[1, 2]], [[3, 4]], 4, []⟩).events = [] :=
  c1_param_channel_last_write_wins [⟨.stereo, true⟩] [⟨.stereo, true⟩] 4 demo_mem
    ⟨[0], [false], [false]⟩ [(0, 1/2)] 0 (1/2) ⟨[[1, 2]], [[3, 4]], 4, []⟩
    rfl (by decide) rfl rfl

/-! ## Claim C5 — which Dirty-Set a write marks -/

/-- Claim C5 counterexample: the claim says every parameter write marks the
dirty bit of exactly one Dirty-Set — the one consumed by the side that is not
writing — and that the writing side's own Dirty-Set is never marked.
`setParamNormalized` (cited by the claim itself) refutes this: a single write
through it marks both `dirty_processor` and `dirty_editor`. -/
theorem c5_counterexample_setParamNormalized_marks_both :
    (setParamNormalized ⟨[0], [false], [false]⟩ 0 1).dirty_processor = [true]
      ∧ (setParamNormalized ⟨[0], [false], [false]⟩ 0 1).dirty_editor = [true] := by
  decide

/-- Claim C5 (amended): `perform_edit` (the UI-thread write) stores the value
and marks only `dirty_processor`, leaving `dirty_editor` untouched; a host
automation point applied inside `process` (the audio-thread write) marks only
`dirty_editor`, leaving `dirty_processor` untouched; `setParamNormalized`
(where the host, a third party, is the writer) marks both Dirty-Sets. -/
theorem c5_amended_write_marking
    (s : ParamStates) (i : ℕ) (v : ℚ)
    (hp : i < s.dirty_processor.length) (he : i < s.dirty_editor.length) :
    ((perform_edit s i v).dirty_processor.getD i false = true
      ∧ (perform_edit s i v).dirty_editor = s.dirty_editor)
    ∧ ((process_param_point s i v).dirty_editor.getD i false = true
      ∧ (process_param_point s i v).dirty_processor = s.dirty_processor)
    ∧ ((setParamNormalized s i v).dirty_processor.getD i false = true
      ∧ (setParamNormalized s i v).dirty_editor.getD i false = true) :=
  ⟨⟨getD_set_self hp, rfl⟩, ⟨getD_set_self he, rfl⟩,
   getD_set_self hp, getD_set_self he⟩

/-- Claim C5 witness: the amended marking discipline at a concrete state. -/
theorem c5_amended_write_marking_witness :
    ((perform_edit ⟨[0], [false], [false]⟩ 0 1).dirty_processor.getD 0 false = true
      ∧ (perform_edit ⟨[0], [false], [false]⟩ 0 1).dirty_editor = [false])
    ∧ ((process_param_point ⟨[0], [false], [false]⟩ 0 1).dirty_editor.getD 0 false = true
      ∧ (process_param_point ⟨[0], [false], [false]⟩ 0 1).dirty_processor = [false])
    ∧ ((setParamNormalized ⟨[0], [false], [false]⟩ 0 1).dirty_processor.getD 0 false = true
      ∧ (setParamNormalized ⟨[0], [false], [false]⟩ 0 1).dirty_editor.getD 0 false = true) :=
  c5_amended_write_marking ⟨[0], [false], [false]⟩ 0 1 (by decide) (by decide)

/-! ## Claim C9 — what a bulk state load marks -/

theorem v2_load_fold_untouched (l : List ℕ) (st : V2.ComponentState) :
    ((l.foldl V2.load_step st).plugin_params = st.plugin_params)
    ∧ ((l.foldl V2.load_step st).plugin_values = st.plugin_values)
    ∧ ((l.foldl V2.load_step st).param_count = st.param_count)
    ∧ ((l.foldl V2.load_step st).processor_params.dirty.length
        = st.processor_params.dirty.length)
    ∧ ((l.foldl V2.load_step st).editor_params.length = st.editor_params.length) := by
  induction l generalizing st with
  | nil => exact ⟨rfl, rfl, rfl, rfl, rfl⟩
  | cons j rest ih =>
    have step := ih (V2.load_step st j)
    simpa [V2.load_step, V2.param_values_set, bitsetMark] using step

theorem v2_load_fold_dirty_mono (l : List ℕ) (st : V2.ComponentState) {i : ℕ}
    (h : st.processor_params.dirty.getD i false = true) :
    (l.foldl V2.load_step st).processor_params.dirty.getD i false = true := by
  induction l generalizing st with
  | nil => exact h
  | cons j rest ih =>
    refine ih (V2.load_step st j) ?_
    by_cases hij : j = i
    · subst hij
      have hlt : j < st.processor_params.dirty.length := by
        by_contra hge
        rw [List.getD_eq_default _ _ (le_of_not_lt hge)] at h
        exact Bool.noConfusion h
      show (st.processor_params.dirty.set j true).getD j false = true
      exact getD_set_self hlt
    · show (st.processor_params.dirty.set j true).getD i false = true
      rw [getD_set_ne hij]
      exact h

theorem v2_load_fold_marks (l : List ℕ) (st : V2.ComponentState) {i : ℕ}
    (hmem : i ∈ l) (hlt : i < st.processor_params.dirty.length) :
    (l.foldl V2.load_step st).processor_params.dirty.getD i false = true := by
  induction l generalizing st with
  | nil => simp at hmem
  | cons j rest ih =>
    rcases List.mem_cons.mp hmem with rfl | hmem
    · refine v2_load_fold_dirty_mono rest (V2.load_step st i) ?_
      show (st.processor_params.dirty.set i true).getD i false = true
      exact getD_set_self hlt
    · exact ih (V2.load_step st j) hmem
        (by simpa [V2.load_step, V2.param_values_set, bitsetMark] using hlt)

theorem v2_load_fold_editor_not_mem (l : List ℕ) (st : V2.ComponentState) {i : ℕ}
    (h : i ∉ l) :
    (l.foldl V2.load_step st).editor_params.getD i 0 = st.editor_params.getD i 0 := by
  induction l generalizing st with
  | nil => rfl
  | cons j rest ih =>
    have hji : j ≠ i := fun he => h (he ▸ List.mem_cons_self j rest)
    have hrest : i ∉ rest := fun hm => h (List.mem_cons_of_mem j hm)
    refine (ih (V2.load_step st j) hrest).trans ?_
    show (st.editor_params.set j _).getD i 0 = st.editor_params.getD i 0
    exact getD_set_ne hji

theorem v2_load_fold_editor (l : List ℕ) (st : V2.ComponentState) {i : ℕ}
    (hnd : l.Nodup) (hmem : i ∈ l) (hlt : i < st.editor_params.length) :
    (l.foldl V2.load_step st).editor_params.getD i 0 = st.plugin_values.getD i 0 := by
  induction l generalizing st with
  | nil => simp at hmem
  | cons j rest ih =>
    rcases List.mem_cons.mp hmem with rfl | hmem
    · have hni : i ∉ rest := (List.nodup_cons.mp hnd).1
      refine (v2_load_fold_editor_not_mem rest (V2.load_step st i) hni).trans ?_
      show (st.editor_params.set i (st.plugin_values.getD i 0)).getD i 0
        = st.plugin_values.getD i 0
      exact getD_set_self hlt
    · have hrest := (List.nodup_cons.mp hnd).2
      refine (ih (V2.load_step st j) hrest hmem
        (by simpa [V2.load_step] using hlt)).trans ?_
      rfl

/-- Claim C9 counterexample: the claim says that after every successful bulk
state load, every parameter index is marked dirty in both the
pending-for-processor and the pending-for-model/editor Dirty-Sets.  In the
`Component` generation the claim itself cites (`component.rs` lines 298–315),
a successful load marks only `processor_params`: here a one-parameter
component loads successfully (`kResultOk`, processor channel marked) and the
pending-for-model channel `plugin_params` ends the call with no index
marked. -/
theorem c9_counterexample_component_model_direction_unmarked :
    (V2.setState true [1] ⟨1, [0], ⟨[0], [false]⟩, ⟨[0], [false]⟩, [0]⟩).1 = TResult.resultOk
    ∧ (V2.setState true [1] ⟨1, [0], ⟨[0], [false]⟩, ⟨[0], [false]⟩, [0]⟩).2.plugin_params.dirty
        = [false]
    ∧ (V2.setState true [1]
        ⟨1, [0], ⟨[0], [false]⟩, ⟨[0], [false]⟩, [0]⟩).2.processor_params.dirty = [true] := by
  decide

/-- Claim C9 (amended): after every successful bulk state load, both
dirty-set consumers are resynchronized, but not uniformly across the two
cited implementations.  In the `Wrapper` generation (`vst3.rs` lines
514–523), `set_all` marks every parameter index in both the
pending-for-processor and the pending-for-model/editor Dirty-Sets.  In the
`Component` generation (`component.rs` lines 298–315), every parameter index
is marked in the pending-for-processor channel and the editor's value table is
overwritten directly with the loaded values, while the pending-for-model
channel is not marked at all (its bits end the call cleared — the plugin
model itself was the target of the load). -/
theorem c9_amended_state_load_resync
    (load_ok : Bool) (loaded : List ℚ) (s : ParamStates) (cs : V2.ComponentState) (i : ℕ)
    (hw : (setState load_ok loaded s).1 = TResult.resultOk)
    (hv : (V2.setState load_ok loaded cs).1 = TResult.resultOk)
    (hpd : cs.processor_params.dirty.length = cs.param_count)
    (hed : cs.editor_params.length = cs.param_count) :
    ((i < s.dirty_processor.length →
        (setState load_ok loaded s).2.dirty_processor.getD i false = true)
      ∧ (i < s.dirty_editor.length →
        (setState load_ok loaded s).2.dirty_editor.getD i false = true))
    ∧ ((i < cs.param_count →
        (V2.setState load_ok loaded cs).2.processor_params.dirty.getD i false = true)
      ∧ (V2.setState load_ok loaded cs).2.plugin_params.dirty
          = List.replicate cs.plugin_params.dirty.length false
      ∧ (i < cs.param_count →
        (V2.setState load_ok loaded cs).2.editor_params.getD i 0 = loaded.getD i 0)) := by
  cases load_ok with
  | false =>
    exact absurd hw (by simp [setState])
  | true =>
    refine ⟨⟨?_, ?_⟩, ?_, ?_, ?_⟩
    · intro hp
      simpa [setState, bitsetSetAll] using getD_replicate_lt (a := true) (d := false) hp
    · intro he
      simpa [setState, bitsetSetAll] using getD_replicate_lt (a := true) (d := false) he
    · intro hlt
      show ((List.range (V2.sync_plugin cs).param_count).foldl V2.load_step
        { V2.sync_plugin cs with plugin_values := loaded }).processor_params.dirty.getD i false
          = true
      refine v2_load_fold_marks _ _ ?_ ?_
      · exact List.mem_range.mpr hlt
      · show i < (V2.sync_plugin cs).processor_params.dirty.length
        rw [show (V2.sync_plugin cs).processor_params = cs.processor_params from rfl, hpd]
        exact hlt
    · show ((List.range (V2.sync_plugin cs).param_count).foldl V2.load_step
        { V2.sync_plugin cs with plugin_values := loaded }).plugin_params.dirty
          = List.replicate cs.plugin_params.dirty.length false
      rw [(v2_load_fold_untouched _ _).1]
      rfl
    · intro hlt
      show ((List.range (V2.sync_plugin cs).param_count).foldl V2.load_step
        { V2.sync_plugin cs with plugin_values := loaded }).editor_params.getD i 0
          = loaded.getD i 0
      refine (v2_load_fold_editor (List.range (V2.sync_plugin cs).param_count)
        ({ V2.sync_plugin cs with plugin_values := loaded }) (List.nodup_range _)
        (List.mem_range.mpr hlt) ?_).trans ?_
      · show i < cs.editor_params.length
        rw [hed]
        exact hlt
      · rfl

/-- Claim C9 witness: a successful one-parameter load through both
generations — the `Wrapper` marks both Dirty-Sets, the `Component` marks the
processor channel, clears the model channel, and overwrites the editor
value. -/
theorem c9_amended_state_load_resync_witness :
    ((0 < ([false] : List Bool).length →
        (setState true [1] ⟨[0], [false], [false]⟩).2.dirty_processor.getD 0 false = true)
      ∧ (0 < ([false] : List Bool).length →
        (setState true [1] ⟨[0], [false], [false]⟩).2.dirty_editor.getD 0 false = true))
    ∧ ((0 < (1 : ℕ) →
        (V2.setState true [1]
          ⟨1, [0], ⟨[0], [false]⟩, ⟨[0], [false]⟩, [0]⟩).2.processor_params.dirty.getD 0 false
          = true)
      ∧ (V2.setState true [1]
          ⟨1, [0], ⟨[0], [false]⟩, ⟨[0], [false]⟩, [0]⟩).2.plugin_params.dirty
          = List.replicate ([false] : List Bool).length false
      ∧ (0 < (1 : ℕ) →
        (V2.setState true [1]
          ⟨1, [0], ⟨[0], [false]⟩, ⟨[0], [false]⟩, [0]⟩).2.editor_params.getD 0 0
          = ([1] : List ℚ).getD 0 0)) :=
  c9_amended_state_load_resync true [1] ⟨[0], [false], [false]⟩
    ⟨1, [0], ⟨[0], [false]⟩, ⟨[0], [false]⟩, [0]⟩ 0 rfl rfl rfl rfl

/-! ## Claim C3 — layout resolution failure leaves the layout unchanged -/

/-- Claim C3: for every candidate layout, if it is not a member of the
declared layout set — including a wrong input or output bus count and an
unsupported speaker arrangement — then `setBusArrangements` returns failure
(`kResultFalse`) and the previously active bus states, hence every bus's
reported channel count, are left unchanged (no partial application). -/
theorem c3_setBusArrangements_failure_unchanged
    (bus_inputs_len bus_outputs_len : ℕ) (bus_config_set : List BusConfig)
    (s : BusStates) (inputs outputs : List SpeakerArrangement)
    (h : inputs.length ≠ bus_inputs_len ∨ outputs.length ≠ bus_outputs_len
      ∨ map_formats inputs = none ∨ map_formats outputs = none
      ∨ ∀ fi fo, map_formats inputs = some fi → map_formats outputs = some fo →
          ({ inputs := fi, outputs := fo } : BusConfig) ∉ bus_config_set) :
    setBusArrangements bus_inputs_len bus_outputs_len bus_config_set s inputs outputs
        = (.resultFalse, s)
      ∧ ((setBusArrangements bus_inputs_len bus_outputs_len bus_config_set s inputs
            outputs).2.inputs.map fun b => b.format.channels)
          = s.inputs.map (fun b => b.format.channels)
      ∧ ((setBusArrangements bus_inputs_len bus_outputs_len bus_config_set s inputs
            outputs).2.outputs.map fun b => b.format.channels)
          = s.outputs.map (fun b => b.format.channels) := by
  have hmain : setBusArrangements bus_inputs_len bus_outputs_len bus_config_set s inputs outputs
      = (.resultFalse, s) := by
    unfold setBusArrangements
    by_cases hc : inputs.length ≠ bus_inputs_len ∨ outputs.length ≠ bus_outputs_len
    · rw [if_pos hc]
    · rw [if_neg hc]
      rcases hin : map_formats inputs with _ | fi
      · rfl
      · rcases hout : map_formats outputs with _ | fo
        · rfl
        · have hnotmem : ({ inputs := fi, outputs := fo } : BusConfig) ∉ bus_config_set := by
            rcases h with h | h | h | h | h
            · exact absurd (Or.inl h) hc
            · exact absurd (Or.inr h) hc
            · rw [hin] at h; exact Option.noConfusion h
            · rw [hout] at h; exact Option.noConfusion h
            · exact h fi fo hin hout
          simp [hnotmem]
  exact ⟨hmain, by rw [hmain], by rw [hmain]⟩

/-- Claim C3 witness: proposing a mono arrangement (unsupported by this
generation's `BusFormat`) against a declared stereo-stereo layout set fails
and leaves the active stereo layout, and its channel counts, unchanged. -/
theorem c3_setBusArrangements_failure_unchanged_witness :
    setBusArrangements 1 1 [{ inputs := [.stereo], outputs := [.stereo] }]
        ⟨[⟨.stereo, true⟩], [⟨.stereo, true⟩]⟩ [.mono] [.stereo]
        = (.resultFalse, ⟨[⟨.stereo, true⟩], [⟨.stereo, true⟩]⟩)
      ∧ ((setBusArrangements 1 1 [{ inputs := [.stereo], outputs := [.stereo] }]
            ⟨[⟨.stereo, true⟩], [⟨.stereo, true⟩]⟩ [.mono]
            [.stereo]).2.inputs.map fun b => b.format.channels)
          = ([⟨.stereo, true⟩] : List BusState).map (fun b => b.format.channels)
      ∧ ((setBusArrangements 1 1 [{ inputs := [.stereo], outputs := [.stereo] }]
            ⟨[⟨.stereo, true⟩], [⟨.stereo, true⟩]⟩ [.mono]
            [.stereo]).2.outputs.map fun b => b.format.channels)
          = ([⟨.stereo, true⟩] : List BusState).map (fun b => b.format.channels) :=
  c3_setBusArrangements_failure_unchanged 1 1 [{ inputs := [.stereo], outputs := [.stereo] }]
    ⟨[⟨.stereo, true⟩], [⟨.stereo, true⟩]⟩ [.mono] [.stereo]
    (Or.inr (Or.inr (Or.inl (by decide))))

/-! ## Claim C10 — format / speaker-arrangement round trip -/

/-- Claim C10: the claim states that for every bus format `f`,
`speaker_arrangement_to_format (format_to_speaker_arrangement f) = some f`.
The code (`component.rs` line 22) maps `Format::Mono` to `SpeakerArr::kStereo`,
so the round trip at `Mono` yields `some Stereo`, not `some Mono` — the code
contradicts its own inverse (`speaker_arrangement_to_format` maps `kMono` to
`Mono`), a slip in the code. -/
theorem c10_mono_round_trip_fails :
    V2.speaker_arrangement_to_format (V2.format_to_speaker_arrangement V2.Format.mono)
        = some V2.Format.stereo
      ∧ some V2.Format.stereo ≠ some V2.Format.mono := by
  exact ⟨rfl, by decide⟩

/-! ## Claim C2 — aliased inputs are presented as copies -/

/-- Claim C2: the claim states that every input channel whose host pointer
aliases an output pointer is presented to the plugin as a copy of the original
input samples.  The code copies aliased channels into the scratch buffer
contiguously, `samples` floats per channel (`extend_from_slice`, `vst3.rs`
line 849–853), but substitutes a pointer at offset `index * max_buffer_size`
(line 857): with two aliased channels and a block (2 samples) shorter than the
maximum (4), channel 1's view reads at scratch offset 4 while its copy sits at
offset 2, yielding data past the end of everything copied (modelled as the
empty read) instead of the copied samples `[3, 4]`. -/
theorem c2_aliased_copy_wrong_offset :
    ((process [⟨.stereo, true⟩] [⟨.stereo, true⟩] 4 demo_mem ⟨[], [], []⟩
        ⟨[[1, 2]], [[1, 2]], 2, []⟩).input_views = [[1, 2], []])
      ∧ (process [⟨.stereo, true⟩] [⟨.stereo, true⟩] 4 demo_mem ⟨[], [], []⟩
          ⟨[[1, 2]], [[1, 2]], 2, []⟩).input_views.getD 1 [] ≠ (demo_mem 2).take 2 := by
  decide

/-! ## Buffer-validation lemmas (for claims C6 and C7) -/

theorem gather_error_of_mismatch :
    ∀ (hosts : List (List ℕ)) (buses : List BusState),
      bus_channel_mismatch hosts buses → gather_ptrs hosts buses = .error () := by
  intro hosts buses
  induction buses generalizing hosts with
  | nil =>
    rintro ⟨pr, hpr, _⟩
    simp [List.zip_nil_right] at hpr
  | cons b bs ih =>
    rintro ⟨pr, hpr, hen, hch, hne⟩
    cases hosts with
    | nil => simp at hpr
    | cons h hs =>
      rw [List.zip_cons_cons] at hpr
      rcases List.mem_cons.mp hpr with rfl | hpr
      · have hen' : b.enabled = true := hen
        have hch' : b.format.channels ≠ 0 := hch
        have hne' : h.length ≠ b.format.channels := hne
        have hguard : (!b.enabled || b.format.channels == 0) = false := by
          simp [hen', hch']
        rw [gather_ptrs, hguard]
        simp only [Bool.false_eq_true, if_false]
        rw [if_pos hne']
      · have htail : gather_ptrs hs bs = .error () := ih hs ⟨pr, hpr, hen, hch, hne⟩
        rw [gather_ptrs]
        by_cases hguard : (!b.enabled || b.format.channels == 0) = true
        · rw [if_pos hguard]; exact htail
        · rw [if_neg hguard]
          by_cases hlen : h.length ≠ b.format.channels
          · rw [if_pos hlen]
          · rw [if_neg hlen, htail]; rfl

theorem resolve_side_error (hosts : List (List ℕ)) (buses : List BusState)
    (hne : buses ≠ [])
    (h : hosts.length ≠ buses.length ∨ bus_channel_mismatch hosts buses) :
    resolve_side hosts buses = .error () := by
  rw [resolve_side, if_neg (by simpa [List.isEmpty_iff] using hne)]
  rcases h with h | h
  · rw [if_neg h]
  · by_cases hlen : hosts.length = buses.length
    · rw [if_pos hlen]; exact gather_error_of_mismatch hosts buses h
    · rw [if_neg hlen]

/-! ## Claim C6 — negotiated-layout violations reject the block -/

/-- Claim C6 counterexample: the claim quantifies over every `process` call,
but for a zero-length block the code performs no bus-count validation at all
(`vst3.rs` line 782 guards all checks with `samples > 0`): here the host
supplies two input buses against one declared bus and the call still succeeds
and invokes the processor. -/
theorem c6_counterexample_zero_samples_not_rejected :
    (process [⟨.stereo, true⟩] [⟨.stereo, true⟩] 4 demo_mem ⟨[], [], []⟩
        ⟨[[1, 2], [3, 4]], [[1, 2]], 0, []⟩).result = TResult.resultOk
      ∧ (process [⟨.stereo, true⟩] [⟨.stereo, true⟩] 4 demo_mem ⟨[], [], []⟩
          ⟨[[1, 2], [3, 4]], [[1, 2]], 0, []⟩).invoked = true := by
  decide

/-- Claim C6 (amended): for every `process` call over a block of positive
length, if on a side with a nonempty declared bus list the host-supplied bus
count differs from the declared one, or some enabled bus with a nonzero
channel count is supplied a different number of channel buffers, then the call
is rejected with `kInvalidArgument` and the plugin's processor is not invoked.
(For a zero-length block, and on a side whose declared bus list is empty, the
code skips validation.) -/
theorem c6_amended_contract_violation_rejected
    (bus_inputs bus_outputs : List BusState) (max_buffer_size : ℕ)
    (mem : ℕ → List ℚ) (s : ParamStates) (d : HostData)
    (hs : d.samples ≠ 0)
    (hbad : (bus_inputs ≠ [] ∧ (d.host_inputs.length ≠ bus_inputs.length
              ∨ bus_channel_mismatch d.host_inputs bus_inputs))
          ∨ (bus_outputs ≠ [] ∧ (d.host_outputs.length ≠ bus_outputs.length
              ∨ bus_channel_mismatch d.host_outputs bus_outputs))) :
    (process bus_inputs bus_outputs max_buffer_size mem s d).result = .invalidArgument
      ∧ (process bus_inputs bus_outputs max_buffer_size mem s d).invoked = false := by
  have herr : resolve_ptrs bus_inputs bus_outputs d = .error () := by
    rcases hbad with ⟨hne, hiss⟩ | ⟨hne, hiss⟩
    · rw [resolve_ptrs, resolve_side_error d.host_inputs bus_inputs hne hiss]
    · rw [resolve_ptrs]
      cases hin : resolve_side d.host_inputs bus_inputs with
      | error e => rfl
      | ok ips => rw [resolve_side_error d.host_outputs bus_outputs hne hiss]
  exact process_rejected bus_inputs bus_outputs max_buffer_size mem s d hs herr

/-- Claim C6 witness: the same two-against-one bus-count violation as the
counterexample, but on a four-sample block, is rejected without invoking the
processor. -/
theorem c6_amended_contract_violation_rejected_witness :
    (process [⟨.stereo, true⟩] [⟨.stereo, true⟩] 4 demo_mem ⟨[], [], []⟩
        ⟨[[1, 2], [3, 4]], [[1, 2]], 4, []⟩).result = TResult.invalidArgument
      ∧ (process [⟨.stereo, true⟩] [⟨.stereo, true⟩] 4 demo_mem ⟨[], [], []⟩
          ⟨[[1, 2], [3, 4]], [[1, 2]], 4, []⟩).invoked = false :=
  c6_amended_contract_violation_rejected [⟨.stereo, true⟩] [⟨.stereo, true⟩] 4 demo_mem
    ⟨[], [], []⟩ ⟨[[1, 2], [3, 4]], [[1, 2]], 4, []⟩ (by decide)
    (Or.inl ⟨by decide, Or.inl (by decide)⟩)

/-! ## Claim C7 — out-of-range event offsets -/

/-- Claim C7 counterexample: the claim says a parameter-change event whose
offset lies outside `[0, block length)` causes the block to be rejected.  The
code has no such check (`vst3.rs` lines 747–771 push every point as-is): a
point at offset 100 in a 4-sample block is accepted, the call succeeds, and
the out-of-range event is handed to the plugin. -/
theorem c7_counterexample_offset_past_block_accepted :
    (process [⟨.stereo, true⟩] [⟨.stereo, true⟩] 4 demo_mem ⟨[0], [false], [false]⟩
        ⟨[[1, 2]], [[3, 4]], 4, [⟨0, 100, 1⟩]⟩).result = TResult.resultOk
      ∧ (process [⟨.stereo, true⟩] [⟨.stereo, true⟩] 4 demo_mem ⟨[0], [false], [false]⟩
          ⟨[[1, 2]], [[3, 4]], 4, [⟨0, 100, 1⟩]⟩).invoked = true
      ∧ (process [⟨.stereo, true⟩] [⟨.stereo, true⟩] 4 demo_mem ⟨[0], [false], [false]⟩
          ⟨[[1, 2]], [[3, 4]], 4, [⟨0, 100, 1⟩]⟩).events
          = [{ offset := 100, index := 0, value := 1 }] := by
  decide

/-- Claim C7 (amended): event offsets are not validated — whenever the buffer
validation succeeds (or the block is empty), every host-supplied
parameter-change point is accepted into the event sequence handed to the
plugin, carrying its host-supplied offset unchanged, whether or not that
offset lies inside the block; the call is never rejected on account of an
event offset. -/
theorem c7_amended_offsets_accepted_unchecked
    (bus_inputs bus_outputs : List BusState) (max_buffer_size : ℕ)
    (mem : ℕ → List ℚ) (s : ParamStates) (d : HostData) (p : ParamPoint)
    (h : d.samples = 0 ∨ ∃ pr, resolve_ptrs bus_inputs bus_outputs d = .ok pr)
    (hp : p ∈ d.points) :
    (process bus_inputs bus_outputs max_buffer_size mem s d).result = .resultOk
      ∧ (process bus_inputs bus_outputs max_buffer_size mem s d).invoked = true
      ∧ point_event p ∈ (process bus_inputs bus_outputs max_buffer_size mem s d).events := by
  rcases process_ok bus_inputs bus_outputs max_buffer_size mem s d h with ⟨h1, h2⟩
  refine ⟨h1, h2, ?_⟩
  rw [process_events]
  refine (sort_by_offset_perm _).mem_iff.mpr ?_
  rw [arrival_events]
  exact List.mem_append_right _ (List.mem_map_of_mem _ hp)

/-- Claim C7 witness: the out-of-range point of the counterexample satisfies
the amended statement — accepted, with its offset intact. -/
theorem c7_amended_offsets_accepted_unchecked_witness :
    (process [⟨.stereo, true⟩] [⟨.stereo, true⟩] 4 demo_mem ⟨[0], [false], [false]⟩
        ⟨[[1, 2]], [[3, 4]], 4, [⟨0, 100, 1⟩]⟩).result = TResult.resultOk
      ∧ (process [⟨.stereo, true⟩] [⟨.stereo, true⟩] 4 demo_mem ⟨[0], [false], [false]⟩
          ⟨[[1, 2]], [[3, 4]], 4, [⟨0, 100, 1⟩]⟩).invoked = true
      ∧ point_event ⟨0, 100, 1⟩ ∈ (process [⟨.stereo, true⟩] [⟨.stereo, true⟩] 4 demo_mem
          ⟨[0], [false], [false]⟩ ⟨[[1, 2]], [[3, 4]], 4, [⟨0, 100, 1⟩]⟩).events :=
  c7_amended_offsets_accepted_unchecked [⟨.stereo, true⟩] [⟨.stereo, true⟩] 4 demo_mem
    ⟨[0], [false], [false]⟩ ⟨[[1, 2]], [[3, 4]], 4, [⟨0, 100, 1⟩]⟩ ⟨0, 100, 1⟩
    (Or.inr ⟨([1, 2], [3, 4]), rfl⟩) (by decide)

/-! ## Claim C8 — the event timeline is sorted and the sort is stable -/

/-- Claim C8: for every `process` call, the sequence of events handed to the
plugin's processor is ordered by non-decreasing offset, and events with equal
offsets appear in their arrival order — for each offset `t`, filtering the
handed sequence at `t` yields exactly the arrival-order subsequence at `t` —
regardless of the per-parameter order in which the host supplied the
points. -/
theorem c8_events_sorted_and_stable
    (bus_inputs bus_outputs : List BusState) (max_buffer_size : ℕ)
    (mem : ℕ → List ℚ) (s : ParamStates) (d : HostData) :
    List.Pairwise (fun a b => a.offset ≤ b.offset)
        (process bus_inputs bus_outputs max_buffer_size mem s d).events
      ∧ ∀ t, ((process bus_inputs bus_outputs max_buffer_size mem s d).events.filter
            (fun e => e.offset == t))
          = (arrival_events s d.points).filter (fun e => e.offset == t) := by
  rw [process_events]
  exact ⟨sort_by_offset_sorted _, fun t => sort_by_offset_filter _ t⟩

/-! ## Scratch-storage lemmas (for claim C4) -/

theorem gather_length :
    ∀ (hosts : List (List ℕ)) (buses : List BusState) (l : List ℕ),
      gather_ptrs hosts buses = .ok l → hosts.length = buses.length →
      l.length = enabled_channel_count buses := by
  intro hosts buses
  induction buses generalizing hosts with
  | nil =>
    intro l h _
    cases hosts with
    | nil => cases h; rfl
    | cons x xs => cases h; rfl
  | cons b bs ih =>
    intro l h hlen
    cases hosts with
    | nil => exact absurd hlen (by simp)
    | cons x xs =>
      have hlen' : xs.length = bs.length := by simpa using hlen
      rw [gather_ptrs] at h
      by_cases hguard : (!b.enabled || b.format.channels == 0) = true
      · rw [if_pos hguard] at h
        have hrec := ih xs l h hlen'
        have hzero : (if b.enabled = true then b.format.channels else 0) = 0 := by
          rcases Bool.or_eq_true_iff.mp hguard with hg | hg
          · have hbe : b.enabled = false := by simpa using hg
            simp [hbe]
          · have hbc : b.format.channels = 0 := by simpa using hg
            simp [hbc]
        simp [enabled_channel_count, hzero] at hrec ⊢
        omega
      · rw [if_neg hguard] at h
        have hen : b.enabled = true := by
          by_contra hb
          exact hguard (by simp [Bool.eq_false_iff.mpr hb])
        by_cases hch : x.length ≠ b.format.channels
        · rw [if_pos hch] at h; exact Except.noConfusion h
        · rw [if_neg hch] at h
          push_neg at hch
          cases hrec : gather_ptrs xs bs with
          | error e => rw [hrec] at h; exact Except.noConfusion h
          | ok rest =>
            rw [hrec] at h
            have hx : x ++ rest = l := by
              simpa [Except.map] using h
            subst hx
            have hr := ih xs rest hrec hlen'
            simp [enabled_channel_count, hen, List.length_append, hch] at hr ⊢
            omega

theorem gather_sublist :
    ∀ (hosts : List (List ℕ)) (buses : List BusState) (l : List ℕ),
      gather_ptrs hosts buses = .ok l → l.Sublist hosts.flatten := by
  intro hosts buses
  induction buses generalizing hosts with
  | nil =>
    intro l h
    cases hosts with
    | nil => cases h; exact List.nil_sublist _
    | cons x xs => cases h; exact List.nil_sublist _
  | cons b bs ih =>
    intro l h
    cases hosts with
    | nil => cases h; exact List.nil_sublist _
    | cons x xs =>
      rw [gather_ptrs] at h
      by_cases hguard : (!b.enabled || b.format.channels == 0) = true
      · rw [if_pos hguard] at h
        exact (ih xs l h).trans (by simp)
      · rw [if_neg hguard] at h
        by_cases hch : x.length ≠ b.format.channels
        · rw [if_pos hch] at h; exact Except.noConfusion h
        · rw [if_neg hch] at h
          cases hrec : gather_ptrs xs bs with
          | error e => rw [hrec] at h; exact Except.noConfusion h
          | ok rest =>
            rw [hrec] at h
            have hx : x ++ rest = l := by simpa [Except.map] using h
            subst hx
            simpa using (ih xs rest hrec).append_left x

theorem resolve_side_ok_length {hosts : List (List ℕ)} {buses : List BusState} {l : List ℕ}
    (h : resolve_side hosts buses = .ok l) : l.length = enabled_channel_count buses := by
  rw [resolve_side] at h
  by_cases hempty : buses.isEmpty = true
  · rw [if_pos hempty] at h
    cases h
    rw [List.isEmpty_iff.mp hempty]
    rfl
  · rw [if_neg hempty] at h
    by_cases hlen : hosts.length = buses.length
    · rw [if_pos hlen] at h
      exact gather_length hosts buses l h hlen
    · rw [if_neg hlen] at h
      exact Except.noConfusion h

theorem resolve_side_ok_sublist {hosts : List (List ℕ)} {buses : List BusState} {l : List ℕ}
    (h : resolve_side hosts buses = .ok l) : l.Sublist hosts.flatten := by
  rw [resolve_side] at h
  by_cases hempty : buses.isEmpty = true
  · rw [if_pos hempty] at h
    cases h
    exact List.nil_sublist _
  · rw [if_neg hempty] at h
    by_cases hlen : hosts.length = buses.length
    · rw [if_pos hlen] at h
      exact gather_sublist hosts buses l h
    · rw [if_neg hlen] at h
      exact Except.noConfusion h

theorem resolve_ptrs_ok {bus_inputs bus_outputs : List BusState} {d : HostData}
    {ips ops : List ℕ} (h : resolve_ptrs bus_inputs bus_outputs d = .ok (ips, ops)) :
    resolve_side d.host_inputs bus_inputs = .ok ips
      ∧ resolve_side d.host_outputs bus_outputs = .ok ops := by
  rw [resolve_ptrs] at h
  cases hin : resolve_side d.host_inputs bus_inputs with
  | error e => rw [hin] at h; exact Except.noConfusion h
  | ok a =>
    rw [hin] at h
    cases hout : resolve_side d.host_outputs bus_outputs with
    | error e => rw [hout] at h; exact Except.noConfusion h
    | ok b =>
      rw [hout] at h
      simp only [Except.ok.injEq, Prod.mk.injEq] at h
      rw [← h.1, ← h.2]
      exact ⟨rfl, rfl⟩

theorem scratch_flatten_bound (ips ops : List ℕ) (mem : ℕ → List ℚ)
    (samples maxbuf : ℕ) (hnodup : ips.Nodup) (hsam : samples ≤ maxbuf) :
    (((ips.filter fun p => ops.contains p).map fun p => (mem p).take samples).flatten).length
      ≤ maxbuf * min ips.length ops.length := by
  set al := ips.filter fun p => ops.contains p with hal
  have h1 : al.length ≤ ips.length := List.length_filter_le _ _
  have h2 : al.length ≤ ops.length := by
    have hnd : al.Nodup := hnodup.filter _
    have hsub : al ⊆ ops := by
      intro x hx
      have hc := (List.mem_filter.mp hx).2
      simp at hc
      exact hc
    exact (hnd.subperm hsub).length_le
  calc ((al.map fun p => (mem p).take samples).flatten).length
      = ((al.map fun p => (mem p).take samples).map List.length).sum := List.length_flatten _
    _ ≤ ((al.map fun p => (mem p).take samples).map List.length).length * samples := by
        refine le_trans (List.sum_le_card_nsmul _ samples ?_) (by simp [smul_eq_mul])
        intro x hx
        rcases List.mem_map.mp hx with ⟨y, hy, rfl⟩
        rcases List.mem_map.mp hy with ⟨p, hp, rfl⟩
        exact List.length_take_le samples (mem p)
    _ = al.length * samples := by simp
    _ ≤ min ips.length ops.length * maxbuf :=
        Nat.mul_le_mul (le_min h1 h2) hsam
    _ = maxbuf * min ips.length ops.length := Nat.mul_comm _ _

/-! ## Claim C4 — scratch storage sizing and the no-reallocation invariant -/

/-- Claim C4 counterexample: the claim's invariant is quantified over every
aliasing pattern, but with duplicated input channel pointers a single call
copies more than the activation-time capacity: two declared stereo input buses
and one stereo output bus give a capacity of `4 * min 4 2 = 8` floats, yet a
full 4-sample block whose four input channels all alias the single output
pointer appends `4 * 4 = 16` floats — the `Vec` would have to grow
(reallocate) mid-block. -/
theorem c4_counterexample_duplicate_ptrs_exceed_capacity :
    (process [⟨.stereo, true⟩, ⟨.stereo, true⟩] [⟨.stereo, true⟩] 4 demo_mem ⟨[], [], []⟩
        ⟨[[5, 5], [5, 5]], [[5, 6]], 4, []⟩).scratch_len = 16
      ∧ scratch_buffer_size 4 [⟨.stereo, true⟩, ⟨.stereo, true⟩] [⟨.stereo, true⟩] = 8
      ∧ ¬(16 : ℕ) ≤ 8 := by
  decide

/-- Claim C4 (amended): at activation the scratch storage is sized to exactly
`max block length × min(total declared input channels, total declared output
channels)`, and for every `process` call whose block length does not exceed
the declared maximum and whose input channel pointers are pairwise distinct,
the floats copied into scratch storage during the call never exceed that
capacity — so the storage established at activation is never grown or
reallocated. -/
theorem c4_amended_scratch_sized_once
    (bus_inputs bus_outputs : List BusState) (max_buffer_size : ℕ)
    (mem : ℕ → List ℚ) (s : ParamStates) (d : HostData)
    (hsam : d.samples ≤ max_buffer_size)
    (hnodup : d.host_inputs.flatten.Nodup) :
    scratch_buffer_size max_buffer_size bus_inputs bus_outputs
        = max_buffer_size *
            min (enabled_channel_count bus_inputs) (enabled_channel_count bus_outputs)
      ∧ (process bus_inputs bus_outputs max_buffer_size mem s d).scratch_len
          ≤ scratch_buffer_size max_buffer_size bus_inputs bus_outputs := by
  refine ⟨rfl, ?_⟩
  by_cases hd : d.samples = 0
  · unfold process
    simp [hd]
  · cases hr : resolve_ptrs bus_inputs bus_outputs d with
    | error e =>
      unfold process
      simp [hd, hr]
    | ok pr =>
      rcases pr with ⟨ips, ops⟩
      rw [process_scratch bus_inputs bus_outputs max_buffer_size mem s d ips ops hd hr]
      rcases resolve_ptrs_ok hr with ⟨hin, hout⟩
      have hips_len : ips.length = enabled_channel_count bus_inputs :=
        resolve_side_ok_length hin
      have hops_len : ops.length = enabled_channel_count bus_outputs :=
        resolve_side_ok_length hout
      have hips_nodup : ips.Nodup := (resolve_side_ok_sublist hin).nodup hnodup
      have hb := scratch_flatten_bound ips ops mem d.samples max_buffer_size hips_nodup hsam
      rw [hips_len, hops_len] at hb
      exact hb

/-- Claim C4 witness: a fully aliased 2-sample block over a stereo-in /
stereo-out session with maximum block length 4 stays within the capacity. -/
theorem c4_amended_scratch_sized_once_witness :
    scratch_buffer_size 4 [⟨.stereo, true⟩] [⟨.stereo, true⟩]
        = 4 * min (enabled_channel_count [⟨.stereo, true⟩])
            (enabled_channel_count [⟨.stereo, true⟩])
      ∧ (process [⟨.stereo, true⟩] [⟨.stereo, true⟩] 4 demo_mem ⟨[], [], []⟩
          ⟨[[1, 2]], [[1, 2]], 2, []⟩).scratch_len
          ≤ scratch_buffer_size 4 [⟨.stereo, true⟩] [⟨.stereo, true⟩] :=
  c4_amended_scratch_sized_once [⟨.stereo, true⟩] [⟨.stereo, true⟩] 4 demo_mem
    ⟨[], [], []⟩ ⟨[[1, 2]], [[1, 2]], 2, []⟩ (by decide) (by decide)

end Coupler
